import Mathlib

/-!
Verification of the habit-tracker core (`useHabits` hook and the `Habit`
data model) against its natural-language specification.

The development shallowly embeds the TypeScript source:

* Calendar dates.  The source handles dates through JavaScript `Date`
  objects built from `YYYY-MM-DD` strings (parsed as UTC midnight) and
  through `toISOString().split("T")[0]`.  A `Date` built this way is,
  semantically, a day number in the proleptic Gregorian calendar, and
  `getTime()` differences divided by 86400000 are exact day differences.
  We model day numbers as natural numbers counted from 0000-03-01
  (so that all quantities stay non-negative); the JS epoch day
  1970-01-01 is day 719468 in this count, and `getDay()` becomes
  `(n + 3) % 7` (0 = Sunday).  String formatting is modelled for years
  0–9999, the range in which `toISOString` produces the plain
  `YYYY-MM-DD` shape the application stores.

* Numbers.  The reduce-habit counters, targets and deltas are modelled
  as integers (the UI supplies whole counts).  The single non-integer
  expression in the source, `Math.round(startValue - decreasePerDay *
  daysDiff)` with `decreasePerDay = decrease / totalDays`, is modelled
  by exact rational rounding written in integer arithmetic:
  `round(s - (dec*diff)/tot) = s + fdiv (tot - 2*dec*diff) (2*tot)`
  for `tot > 0`, since `round x = ⌊x + 1/2⌋` (JS `Math.round` rounds
  half-way cases up).

* Records.  A TS `Record<string, _>` is modelled as a function
  `String → Option _` (absent key = `none`); optional fields are
  `Option`-typed.  The `useHabits` state is a `List Habit`, and each
  mutating command is a function `List Habit → List Habit`.

* Fallible paths.  `new Date(<unparseable>)` yields an Invalid Date
  whose arithmetic is NaN and whose comparisons are all false; the
  embedding returns `Option` values and takes the false/`none` branch
  where the source would flow NaN.
-/

/-! ## Calendar arithmetic -/

/-- Gregorian leap-year test (as in JS `Date` semantics). -/
def isLeapYear (y : ℕ) : Bool :=
  (y % 4 == 0 && y % 100 != 0) || y % 400 == 0

/-- Number of days in month `m` (1–12) of year `y`. -/
def monthLength (y m : ℕ) : ℕ :=
  if m = 2 then (if isLeapYear y then 29 else 28)
  else if m = 4 ∨ m = 6 ∨ m = 9 ∨ m = 11 then 30
  else 31

/-- Days from 0000-03-01 to the start (March 1) of shifted year `y`.
A "shifted year" runs March–February, so its leap day falls at its end. -/
def yearStartDays (y : ℕ) : ℕ :=
  365 * y + y / 4 - y / 100 + y / 400

/-- Days from March 1 to the start of shifted month `mp` (0 = March … 11 = February). -/
def monthOffset (mp : ℕ) : ℕ :=
  (153 * mp + 2) / 5

/-- A calendar date that exists in the proleptic Gregorian calendar and
lies on or after 0000-03-01 (the origin of the day count). -/
def ValidDate (y m d : ℕ) : Prop :=
  1 ≤ m ∧ m ≤ 12 ∧ 1 ≤ d ∧ d ≤ monthLength y m ∧ (3 ≤ m ∨ 1 ≤ y)

instance (y m d : ℕ) : Decidable (ValidDate y m d) := by
  unfold ValidDate; infer_instance

/-- Day number (days since 0000-03-01) of a calendar date. -/
def daysFromCivilN (y m d : ℕ) : ℕ :=
  yearStartDays (if m ≤ 2 then y - 1 else y) +
    monthOffset (if m ≤ 2 then m + 9 else m - 3) + (d - 1)

/-- The shifted (March-based) year containing day `n`: a direct guess from
the 400-year cycle average, corrected downward by at most one. -/
def marchYearOf (n : ℕ) : ℕ :=
  if yearStartDays ((400 * n + 699) / 146097) ≤ n then (400 * n + 699) / 146097
  else (400 * n + 699) / 146097 - 1

/-- Days into the shifted year (0 = March 1) of day number `n`. -/
def dayOfYear (n : ℕ) : ℕ :=
  n - yearStartDays (marchYearOf n)

/-- Shifted month index (0 = March … 11 = February) of day number `n`. -/
def monthIdxOf (n : ℕ) : ℕ :=
  (5 * dayOfYear n + 2) / 153

/-- Calendar date `(year, month, day)` of day number `n`. -/
def civilFromDaysN (n : ℕ) : ℕ × ℕ × ℕ :=
  if monthIdxOf n < 10 then
    (marchYearOf n, monthIdxOf n + 3, dayOfYear n - monthOffset (monthIdxOf n) + 1)
  else
    (marchYearOf n + 1, monthIdxOf n - 9, dayOfYear n - monthOffset (monthIdxOf n) + 1)

/-- JS `Date.prototype.getDay` for day number `n` (0 = Sunday … 6 = Saturday). -/
def jsGetDay (n : ℕ) : ℕ :=
  (n + 3) % 7

theorem marchYearOf_le (n : ℕ) : yearStartDays (marchYearOf n) ≤ n := by
  unfold marchYearOf yearStartDays
  split
  · assumption
  · omega

theorem lt_yearStart_succ_marchYearOf (n : ℕ) : n < yearStartDays (marchYearOf n + 1) := by
  have hq : 146097 * ((400 * n + 699) / 146097) ≤ 400 * n + 699 ∧
      400 * n + 699 < 146097 * ((400 * n + 699) / 146097 + 1) := by omega
  unfold marchYearOf yearStartDays
  generalize (400 * n + 699) / 146097 = q at hq ⊢
  split
  next h => omega
  next h =>
    cases q with
    | zero => omega
    | succ r =>
      simp only [Nat.add_sub_cancel]
      omega

theorem yearStartDays_succ_le (y : ℕ) :
    yearStartDays (y + 1) ≤ yearStartDays y + 366 := by
  unfold yearStartDays; omega

theorem yearStartDays_succ_ge (y : ℕ) :
    yearStartDays y + 365 ≤ yearStartDays (y + 1) := by
  unfold yearStartDays; omega

/-- Propositional form of the leap-year test. -/
theorem isLeapYear_iff (y : ℕ) :
    isLeapYear y = true ↔ (y % 4 = 0 ∧ y % 100 ≠ 0) ∨ y % 400 = 0 := by
  unfold isLeapYear
  simp only [Bool.or_eq_true, Bool.and_eq_true, beq_iff_eq, bne_iff_ne]

/-- The shifted year `y` contains a leap day exactly when calendar year
`y + 1` is a Gregorian leap year (leap case). -/
theorem yearStart_leap_true (y : ℕ) (h : isLeapYear (y + 1) = true) :
    yearStartDays (y + 1) = yearStartDays y + 366 := by
  have hb2 := (isLeapYear_iff (y + 1)).mp h
  unfold yearStartDays
  omega

theorem yearStart_leap_false (y : ℕ) (h : isLeapYear (y + 1) = false) :
    yearStartDays (y + 1) = yearStartDays y + 365 := by
  have hb2 : ¬(((y + 1) % 4 = 0 ∧ (y + 1) % 100 ≠ 0) ∨ (y + 1) % 400 = 0) := fun hx => by
    have h3 := (isLeapYear_iff (y + 1)).mpr hx
    rw [h] at h3
    exact Bool.false_ne_true h3
  unfold yearStartDays
  omega

example : daysFromCivilN 1970 1 1 = 719468 := by decide
example : civilFromDaysN 719468 = (1970, 1, 1) := by decide
example : jsGetDay (daysFromCivilN 2026 1 1) = 4 := by decide

theorem yearStartDays_le_succ (y : ℕ) : yearStartDays y ≤ yearStartDays (y + 1) := by
  unfold yearStartDays
  omega

theorem yearStartDays_mono {a b : ℕ} (h : a ≤ b) :
    yearStartDays a ≤ yearStartDays b := by
  induction b with
  | zero =>
    have ha : a = 0 := by omega
    rw [ha]
  | succ k ih =>
    cases Nat.eq_or_lt_of_le h with
    | inl he => rw [he]
    | inr hlt => exact le_trans (ih (by omega)) (yearStartDays_le_succ k)

theorem marchYearOf_eq (yy n : ℕ) (h1 : yearStartDays yy ≤ n)
    (h2 : n < yearStartDays (yy + 1)) : marchYearOf n = yy := by
  have ha := marchYearOf_le n
  have hb := lt_yearStart_succ_marchYearOf n
  rcases Nat.lt_trichotomy (marchYearOf n) yy with h | h | h
  · have hc := yearStartDays_mono (show marchYearOf n + 1 ≤ yy from h)
    omega
  · exact h
  · have hc := yearStartDays_mono (show yy + 1 ≤ marchYearOf n from h)
    omega

theorem dayOfYear_le (n : ℕ) : dayOfYear n ≤ 365 := by
  have h1 := marchYearOf_le n
  have h2 := lt_yearStart_succ_marchYearOf n
  have h3 := yearStartDays_succ_le (marchYearOf n)
  unfold dayOfYear
  omega

theorem dayOfYear_eq_365 (n : ℕ) (h : dayOfYear n = 365) :
    isLeapYear (marchYearOf n + 1) = true := by
  cases hb : isLeapYear (marchYearOf n + 1) with
  | true => rfl
  | false =>
    have h1 := marchYearOf_le n
    have h2 := lt_yearStart_succ_marchYearOf n
    have h3 := yearStart_leap_false (marchYearOf n) hb
    unfold dayOfYear at h
    omega

theorem yearStart_add_dayOfYear (n : ℕ) :
    yearStartDays (marchYearOf n) + dayOfYear n = n := by
  have h1 := marchYearOf_le n
  unfold dayOfYear
  omega

theorem civil_inv_core (yy mp d : ℕ) (hmp : mp ≤ 11) (hd1 : 1 ≤ d)
    (hlen : monthOffset mp + (d - 1) < monthOffset (mp + 1))
    (hbound : monthOffset mp + (d - 1) ≤ 364 ∨
      (monthOffset mp + (d - 1) = 365 ∧ isLeapYear (yy + 1) = true)) :
    civilFromDaysN (yearStartDays yy + monthOffset mp + (d - 1)) =
      (if mp < 10 then yy else yy + 1, if mp < 10 then mp + 3 else mp - 9, d) := by
  have hup : yearStartDays yy + monthOffset mp + (d - 1) < yearStartDays (yy + 1) := by
    rcases hbound with hb | ⟨hb, hL⟩
    · have h6 := yearStartDays_succ_ge yy
      omega
    · have h6 := yearStart_leap_true yy hL
      omega
  have hmy : marchYearOf (yearStartDays yy + monthOffset mp + (d - 1)) = yy :=
    marchYearOf_eq yy _ (by omega) hup
  unfold civilFromDaysN monthIdxOf dayOfYear
  rw [hmy]
  have hsub : yearStartDays yy + monthOffset mp + (d - 1) - yearStartDays yy
      = monthOffset mp + (d - 1) := by omega
  rw [hsub]
  have hdiv : (5 * (monthOffset mp + (d - 1)) + 2) / 153 = mp := by
    interval_cases mp <;> unfold monthOffset at hlen ⊢ <;> omega
  rw [hdiv]
  split
  · simp only [Prod.mk.injEq]
    exact ⟨trivial, trivial, by omega⟩
  · simp only [Prod.mk.injEq]
    exact ⟨trivial, trivial, by omega⟩

/-- Round trip: converting a valid calendar date to its day number and back
is the identity. -/
theorem daysFromCivilN_leftInv (y m d : ℕ) (h : ValidDate y m d) :
    civilFromDaysN (daysFromCivilN y m d) = (y, m, d) := by
  obtain ⟨h1, h2, h3, h4, h5⟩ := h
  unfold daysFromCivilN
  by_cases hm2 : m ≤ 2
  · rw [if_pos hm2, if_pos hm2]
    have hy1 : 1 ≤ y := by
      rcases h5 with h5 | h5
      · omega
      · exact h5
    obtain ⟨y', rfl⟩ : ∃ y', y = y' + 1 := ⟨y - 1, by omega⟩
    simp only [Nat.add_sub_cancel]
    interval_cases m
    · -- January
      have h4b : d ≤ 31 := by simpa [monthLength] using h4
      have hcore := civil_inv_core y' 10 d (by omega) h3
        (by unfold monthOffset; omega)
        (by unfold monthOffset; omega)
      rw [hcore, if_neg (by omega), if_neg (by omega)]
    · -- February
      have hd29 : d ≤ 29 ∧ (d = 29 → isLeapYear (y' + 1) = true) := by
        cases hL : isLeapYear (y' + 1) with
        | true =>
          rw [monthLength, if_pos rfl, if_pos hL] at h4
          exact ⟨h4, fun _ => rfl⟩
        | false =>
          rw [monthLength, if_pos rfl, if_neg (by rw [hL]; exact Bool.false_ne_true)] at h4
          exact ⟨by omega, fun he => by omega⟩
      have hcore := civil_inv_core y' 11 d (by omega) h3
        (by unfold monthOffset; omega)
        (by
          rcases Nat.lt_or_ge d 29 with hd | hd
          · left; unfold monthOffset; omega
          · right
            have hd29e : d = 29 := by omega
            exact ⟨by unfold monthOffset; omega, hd29.2 hd29e⟩)
      rw [hcore, if_neg (by omega), if_neg (by omega)]
  · rw [if_neg hm2, if_neg hm2]
    have hm3 : 3 ≤ m := by omega
    have hlen : monthOffset (m - 3) + (d - 1) < monthOffset (m - 3 + 1) := by
      interval_cases m <;> simp only [monthLength] at h4 <;> norm_num at h4 <;>
        unfold monthOffset <;> omega
    have hbound : monthOffset (m - 3) + (d - 1) ≤ 364 ∨
        (monthOffset (m - 3) + (d - 1) = 365 ∧ isLeapYear (y + 1) = true) := by
      left
      interval_cases m <;> simp only [monthLength] at h4 <;> norm_num at h4 <;>
        unfold monthOffset <;> omega
    have hcore := civil_inv_core y (m - 3) d (by omega) h3 hlen hbound
    rw [hcore, if_pos (by omega), if_pos (by omega)]
    simp only [Prod.mk.injEq]
    exact ⟨trivial, by omega, trivial⟩

/-- Soundness of the date decomposition: `civilFromDaysN` always yields a
valid calendar date mapping back to the same day number. -/
theorem civilFromDaysN_spec (n : ℕ) :
    ValidDate (civilFromDaysN n).1 (civilFromDaysN n).2.1 (civilFromDaysN n).2.2 ∧
    daysFromCivilN (civilFromDaysN n).1 (civilFromDaysN n).2.1 (civilFromDaysN n).2.2 = n := by
  obtain ⟨yy, doy, hyy, hdoy, hle, hleap, hsum⟩ :
      ∃ yy doy, marchYearOf n = yy ∧ dayOfYear n = doy ∧ doy ≤ 365 ∧
        (doy = 365 → isLeapYear (yy + 1) = true) ∧ yearStartDays yy + doy = n :=
    ⟨marchYearOf n, dayOfYear n, rfl, rfl, dayOfYear_le n,
      fun h => dayOfYear_eq_365 n h, yearStart_add_dayOfYear n⟩
  unfold civilFromDaysN monthIdxOf
  rw [hyy, hdoy]
  obtain ⟨mp, hmpdef⟩ : ∃ mp, (5 * doy + 2) / 153 = mp := ⟨_, rfl⟩
  rw [hmpdef]
  have hmp : mp ≤ 11 := by omega
  interval_cases mp <;>
      norm_num [ValidDate, daysFromCivilN, monthLength, monthOffset] <;>
    first
    | omega
    | (cases hL : isLeapYear (yy + 1) with
       | true =>
         norm_num [hL]
         omega
       | false =>
         have hne : doy ≠ 365 := fun he => by
           have h9 := hleap he
           rw [hL] at h9
           exact Bool.false_ne_true h9
         norm_num [hL]
         omega)

/-! ## Date strings

`parseDate` models `new Date(s)` for a strict `YYYY-MM-DD` string (the only
format the application produces and stores), returning the day number, or
`none` for anything JS would turn into an Invalid Date.  `dateToString`
models `toISOString().split("T")[0]` for dates in years 0–9999. -/

def digitChar (k : ℕ) : Char :=
  Char.ofNat (48 + k)

def digitVal (c : Char) : ℕ :=
  c.toNat - 48

def padNum : ℕ → ℕ → List Char
  | 0, _ => []
  | w + 1, n => padNum w (n / 10) ++ [digitChar (n % 10)]

def dateToString (n : ℕ) : String :=
  ⟨padNum 4 (civilFromDaysN n).1 ++
    '-' :: (padNum 2 (civilFromDaysN n).2.1 ++ '-' :: padNum 2 (civilFromDaysN n).2.2)⟩

def parseDate (s : String) : Option ℕ :=
  match s.data with
  | [y1, y2, y3, y4, '-', m1, m2, '-', d1, d2] =>
    if y1.isDigit ∧ y2.isDigit ∧ y3.isDigit ∧ y4.isDigit ∧
        m1.isDigit ∧ m2.isDigit ∧ d1.isDigit ∧ d2.isDigit ∧
        ValidDate (1000 * digitVal y1 + 100 * digitVal y2 + 10 * digitVal y3 + digitVal y4)
          (10 * digitVal m1 + digitVal m2) (10 * digitVal d1 + digitVal d2) then
      some (daysFromCivilN
        (1000 * digitVal y1 + 100 * digitVal y2 + 10 * digitVal y3 + digitVal y4)
        (10 * digitVal m1 + digitVal m2) (10 * digitVal d1 + digitVal d2))
    else none
  | _ => none

example : parseDate ("2026-01-01") = some 739922 := by decide
example : dateToString 739922 = "2026-01-01" := by decide
example : parseDate ("2026-02-30") = none := by decide

theorem digitVal_digitChar (k : ℕ) (h : k ≤ 9) : digitVal (digitChar k) = k := by
  interval_cases k <;> decide

theorem digitChar_isDigit (k : ℕ) (h : k ≤ 9) : (digitChar k).isDigit = true := by
  interval_cases k <;> decide

theorem isDigit_toNat (c : Char) (h : c.isDigit = true) :
    48 ≤ c.toNat ∧ c.toNat ≤ 57 := by
  unfold Char.isDigit at h
  simp only [Bool.and_eq_true, decide_eq_true_eq] at h
  exact h

theorem digitChar_digitVal (c : Char) (h : c.isDigit = true) :
    digitChar (digitVal c) = c := by
  have h3 := isDigit_toNat c h
  unfold digitChar digitVal
  have h2 : 48 + (c.toNat - 48) = c.toNat := by omega
  rw [h2, Char.ofNat_toNat]

theorem padNum_four (y : ℕ) :
    padNum 4 y = [digitChar (y / 10 / 10 / 10 % 10), digitChar (y / 10 / 10 % 10),
      digitChar (y / 10 % 10), digitChar (y % 10)] := rfl

theorem padNum_two (m : ℕ) :
    padNum 2 m = [digitChar (m / 10 % 10), digitChar (m % 10)] := rfl

theorem padNum_length (w n : ℕ) : (padNum w n).length = w := by
  induction w generalizing n with
  | zero => rfl
  | succ k ih => simp [padNum, ih]

theorem monthLength_le_31 (y m : ℕ) : monthLength y m ≤ 31 := by
  unfold monthLength
  split
  · split <;> omega
  · split <;> omega

theorem digitVal_digitChar_mod (k : ℕ) : digitVal (digitChar (k % 10)) = k % 10 :=
  digitVal_digitChar _ (by omega)

theorem digitChar_isDigit_mod (k : ℕ) : (digitChar (k % 10)).isDigit = true :=
  digitChar_isDigit _ (by omega)

theorem parseDate_mk (y m d : ℕ) (hv : ValidDate y m d) (hy : y ≤ 9999) :
    parseDate ⟨[digitChar (y / 10 / 10 / 10 % 10), digitChar (y / 10 / 10 % 10),
      digitChar (y / 10 % 10), digitChar (y % 10), '-', digitChar (m / 10 % 10),
      digitChar (m % 10), '-', digitChar (d / 10 % 10), digitChar (d % 10)]⟩ =
      some (daysFromCivilN y m d) := by
  obtain ⟨h1, h2, h3, h4, h5⟩ := hv
  have hd31 : d ≤ 31 := le_trans h4 (monthLength_le_31 y m)
  have hy' : 1000 * (y / 10 / 10 / 10 % 10) + 100 * (y / 10 / 10 % 10) +
      10 * (y / 10 % 10) + y % 10 = y := by omega
  have hm' : 10 * (m / 10 % 10) + m % 10 = m := by omega
  have hd' : 10 * (d / 10 % 10) + d % 10 = d := by omega
  unfold parseDate
  simp only [digitVal_digitChar_mod, digitChar_isDigit_mod, hy', hm', hd']
  rw [if_pos]
  exact ⟨trivial, trivial, trivial, trivial, trivial, trivial, trivial, trivial, h1, h2, h3, h4, h5⟩

/-- Printing a day number (with a 4-digit year) and re-parsing gives it back. -/
theorem parseDate_dateToString (n : ℕ) (h : (civilFromDaysN n).1 ≤ 9999) :
    parseDate (dateToString n) = some n := by
  obtain ⟨hval, hrec⟩ := civilFromDaysN_spec n
  rcases hc : civilFromDaysN n with ⟨y, m, d⟩
  rw [hc] at hval hrec h
  unfold dateToString
  rw [hc]
  simp only [padNum_four, padNum_two, List.cons_append, List.nil_append]
  rw [parseDate_mk y m d hval h, hrec]

/-- Parsing a `YYYY-MM-DD` string and re-printing reproduces the string. -/
theorem dateToString_parseDate (s : String) (n : ℕ) (h : parseDate s = some n) :
    dateToString n = s := by
  rcases s with ⟨l⟩
  unfold parseDate at h
  split at h
  next =>
    rename_i y1 y2 y3 y4 m1 m2 d1 d2 heq
    split at h
    next hc =>
      obtain ⟨hg1, hg2, hg3, hg4, hg5, hg6, hg7, hg8, hval⟩ := hc
      have hb1 := isDigit_toNat y1 hg1
      have hb2 := isDigit_toNat y2 hg2
      have hb3 := isDigit_toNat y3 hg3
      have hb4 := isDigit_toNat y4 hg4
      have hb5 := isDigit_toNat m1 hg5
      have hb6 := isDigit_toNat m2 hg6
      have hb7 := isDigit_toNat d1 hg7
      have hb8 := isDigit_toNat d2 hg8
      have heq2 : l = [y1, y2, y3, y4, '-', m1, m2, '-', d1, d2] := heq
      subst heq2
      obtain ⟨hn⟩ := h
      unfold dateToString
      rw [daysFromCivilN_leftInv _ _ _ hval]
      simp only [padNum_four, padNum_two]
      unfold digitVal at hb1 hb2 hb3 hb4 hb5 hb6 hb7 hb8 ⊢
      have e1 : (1000 * (y1.toNat - 48) + 100 * (y2.toNat - 48) + 10 * (y3.toNat - 48) +
          (y4.toNat - 48)) / 10 / 10 / 10 % 10 = y1.toNat - 48 := by omega
      have e2 : (1000 * (y1.toNat - 48) + 100 * (y2.toNat - 48) + 10 * (y3.toNat - 48) +
          (y4.toNat - 48)) / 10 / 10 % 10 = y2.toNat - 48 := by omega
      have e3 : (1000 * (y1.toNat - 48) + 100 * (y2.toNat - 48) + 10 * (y3.toNat - 48) +
          (y4.toNat - 48)) / 10 % 10 = y3.toNat - 48 := by omega
      have e4 : (1000 * (y1.toNat - 48) + 100 * (y2.toNat - 48) + 10 * (y3.toNat - 48) +
          (y4.toNat - 48)) % 10 = y4.toNat - 48 := by omega
      have e5 : (10 * (m1.toNat - 48) + (m2.toNat - 48)) / 10 % 10 = m1.toNat - 48 := by omega
      have e6 : (10 * (m1.toNat - 48) + (m2.toNat - 48)) % 10 = m2.toNat - 48 := by omega
      have e7 : (10 * (d1.toNat - 48) + (d2.toNat - 48)) / 10 % 10 = d1.toNat - 48 := by omega
      have e8 : (10 * (d1.toNat - 48) + (d2.toNat - 48)) % 10 = d2.toNat - 48 := by omega
      rw [e1, e2, e3, e4, e5, e6, e7, e8]
      have f1 := digitChar_digitVal y1 hg1
      have f2 := digitChar_digitVal y2 hg2
      have f3 := digitChar_digitVal y3 hg3
      have f4 := digitChar_digitVal y4 hg4
      have f5 := digitChar_digitVal m1 hg5
      have f6 := digitChar_digitVal m2 hg6
      have f7 := digitChar_digitVal d1 hg7
      have f8 := digitChar_digitVal d2 hg8
      unfold digitVal at f1 f2 f3 f4 f5 f6 f7 f8
      rw [f1, f2, f3, f4, f5, f6, f7, f8]
      rfl
    next => exact absurd h (by simp)
  next => exact absurd h (by simp)

/-! ## Ordering of date strings -/

theorem monthLength_ge_28 (y m : ℕ) : 28 ≤ monthLength y m := by
  unfold monthLength
  split
  · split <;> omega
  · split <;> omega

theorem lex_append_sameLength {α : Type} {r : α → α → Prop} {a b : List α} (s t : List α)
    (hlex : List.Lex r a b) : a.length = b.length → List.Lex r (a ++ s) (b ++ t) := by
  induction hlex with
  | nil =>
    intro hl
    simp at hl
  | rel h =>
    intro hl
    exact List.Lex.rel h
  | cons h ih =>
    intro hl
    exact List.Lex.cons (ih (by simpa using hl))

theorem digitChar_lt : ∀ a, a < 10 → ∀ b, b < 10 → a < b → digitChar a < digitChar b := by
  decide

theorem padNum_lt {w n m : ℕ} (h : n < m) (hm : m < 10 ^ w) :
    List.Lex (· < ·) (padNum w n) (padNum w m) := by
  induction w generalizing n m with
  | zero =>
    simp at hm
    omega
  | succ k ih =>
    have h10 : (10 : ℕ) ^ (k + 1) = 10 ^ k * 10 := pow_succ 10 k
    rcases Nat.lt_or_ge (n / 10) (m / 10) with hd | hd
    · exact lex_append_sameLength _ _ (ih hd (by omega)) (by rw [padNum_length, padNum_length])
    · have hdd : n / 10 = m / 10 := by omega
      show List.Lex (· < ·) (padNum k (n / 10) ++ [digitChar (n % 10)])
        (padNum k (m / 10) ++ [digitChar (m % 10)])
      rw [hdd]
      exact List.Lex.append_left _
        (List.Lex.rel (digitChar_lt _ (by omega) _ (by omega) (by omega))) _

/-- Chronological order on `(year, month, day)` triples. -/
def dateLexLt (a b : ℕ × ℕ × ℕ) : Prop :=
  a.1 < b.1 ∨ (a.1 = b.1 ∧ (a.2.1 < b.2.1 ∨ (a.2.1 = b.2.1 ∧ a.2.2 < b.2.2)))

theorem dateToString_lt_of_lex (a b : ℕ) (ha : (civilFromDaysN a).1 ≤ 9999)
    (hb : (civilFromDaysN b).1 ≤ 9999)
    (h : dateLexLt (civilFromDaysN a) (civilFromDaysN b)) :
    dateToString a < dateToString b := by
  have hva := (civilFromDaysN_spec a).1
  have hvb := (civilFromDaysN_spec b).1
  unfold dateToString
  rcases hca : civilFromDaysN a with ⟨y, m, d⟩
  rcases hcb : civilFromDaysN b with ⟨y2, m2, d2⟩
  rw [hca] at hva ha h
  rw [hcb] at hvb hb h
  dsimp only at hva hvb ha hb h
  obtain ⟨ha1, ha2, ha3, ha4, ha5⟩ := hva
  obtain ⟨hb1, hb2, hb3, hb4, hb5⟩ := hvb
  have ha31 := monthLength_le_31 y m
  have hb31 := monthLength_le_31 y2 m2
  rw [String.lt_iff_toList_lt]
  show List.Lex (· < ·)
    (padNum 4 y ++ '-' :: (padNum 2 m ++ '-' :: padNum 2 d))
    (padNum 4 y2 ++ '-' :: (padNum 2 m2 ++ '-' :: padNum 2 d2))
  rcases h with hy | ⟨hy, hm | ⟨hm, hd⟩⟩
  · exact lex_append_sameLength _ _ (padNum_lt hy (by norm_num; omega))
      (by rw [padNum_length, padNum_length])
  · cases hy
    apply List.Lex.append_left
    apply List.Lex.cons
    exact lex_append_sameLength _ _ (padNum_lt hm (by norm_num; omega))
      (by rw [padNum_length, padNum_length])
  · cases hy
    cases hm
    apply List.Lex.append_left
    apply List.Lex.cons
    apply List.Lex.append_left
    apply List.Lex.cons
    exact padNum_lt hd (by norm_num; omega)

/-- Day numbers at most 3652364 (= 9999-12-31) have a 4-digit year. -/
theorem yearOf_le_9999 (n : ℕ) (h : n ≤ 3652364) : (civilFromDaysN n).1 ≤ 9999 := by
  by_contra hY
  obtain ⟨hv, hrec⟩ := civilFromDaysN_spec n
  rcases hc : civilFromDaysN n with ⟨y, m, d⟩
  rw [hc] at hv hrec hY
  dsimp only at hv hrec hY
  obtain ⟨h1, h2, h3, h4, h5⟩ := hv
  have hy : 10000 ≤ y := by omega
  have c1 : yearStartDays 9999 = 3652059 := by decide
  have c2 : yearStartDays 10000 = 3652425 := by decide
  unfold daysFromCivilN at hrec
  by_cases hm : m ≤ 2
  · rw [if_pos hm, if_pos hm] at hrec
    have hmono : yearStartDays 9999 ≤ yearStartDays (y - 1) :=
      yearStartDays_mono (by omega)
    have hoff : 306 ≤ monthOffset (m + 9) := by
      interval_cases m <;> simp [monthOffset]
    omega
  · rw [if_neg hm, if_neg hm] at hrec
    have hmono : yearStartDays 10000 ≤ yearStartDays y :=
      yearStartDays_mono (by omega)
    omega

/-- Stepping one day forward moves strictly forward in calendar order and
increases the year by at most one. -/
theorem civil_succ_lex (n : ℕ) :
    dateLexLt (civilFromDaysN n) (civilFromDaysN (n + 1)) ∧
    (civilFromDaysN (n + 1)).1 ≤ (civilFromDaysN n).1 + 1 := by
  obtain ⟨hv, hrec⟩ := civilFromDaysN_spec n
  rcases hc : civilFromDaysN n with ⟨y, m, d⟩
  rw [hc] at hv hrec
  dsimp only at hv hrec
  obtain ⟨h1, h2, h3, h4, h5⟩ := hv
  by_cases hd : d < monthLength y m
  · have hnext : civilFromDaysN (n + 1) = (y, m, d + 1) := by
      rw [← daysFromCivilN_leftInv y m (d + 1) ⟨h1, h2, by omega, by omega, h5⟩]
      congr 1
      unfold daysFromCivilN at hrec ⊢
      omega
    rw [hnext]
    exact ⟨Or.inr ⟨rfl, Or.inr ⟨rfl, Nat.lt_succ_self d⟩⟩, Nat.le_succ y⟩
  · by_cases hm : m < 12
    · have hnext : civilFromDaysN (n + 1) = (y, m + 1, 1) := by
        rw [← daysFromCivilN_leftInv y (m + 1) 1
          ⟨by omega, by omega, by omega, le_trans (by omega) (monthLength_ge_28 y (m + 1)),
            by omega⟩]
        congr 1
        have hdl : d = monthLength y m := by omega
        unfold daysFromCivilN at hrec ⊢
        interval_cases m
        · norm_num [monthLength, monthOffset] at hdl hrec ⊢
          omega
        · -- Feb end → Mar 1 (leap-sensitive)
          have hy1 : 1 ≤ y := by omega
          obtain ⟨y3, rfl⟩ : ∃ y3, y = y3 + 1 := ⟨y - 1, by omega⟩
          norm_num [monthOffset] at hrec ⊢
          cases hL : isLeapYear (y3 + 1) with
          | true =>
            have hlen := yearStart_leap_true y3 hL
            unfold monthLength at hdl
            rw [if_pos rfl, if_pos hL] at hdl
            omega
          | false =>
            have hlen := yearStart_leap_false y3 hL
            unfold monthLength at hdl
            rw [if_pos rfl, if_neg (by rw [hL]; exact Bool.false_ne_true)] at hdl
            omega
        · norm_num [monthLength, monthOffset] at hdl hrec ⊢
          omega
        · norm_num [monthLength, monthOffset] at hdl hrec ⊢
          omega
        · norm_num [monthLength, monthOffset] at hdl hrec ⊢
          omega
        · norm_num [monthLength, monthOffset] at hdl hrec ⊢
          omega
        · norm_num [monthLength, monthOffset] at hdl hrec ⊢
          omega
        · norm_num [monthLength, monthOffset] at hdl hrec ⊢
          omega
        · norm_num [monthLength, monthOffset] at hdl hrec ⊢
          omega
        · norm_num [monthLength, monthOffset] at hdl hrec ⊢
          omega
        · norm_num [monthLength, monthOffset] at hdl hrec ⊢
          omega
      rw [hnext]
      exact ⟨Or.inr ⟨rfl, Or.inl (Nat.lt_succ_self m)⟩, Nat.le_succ y⟩
    · have hm12 : m = 12 := by omega
      subst hm12
      have hd31 : d = 31 := by
        norm_num [monthLength] at h4 hd
        omega
      subst hd31
      have hnext : civilFromDaysN (n + 1) = (y + 1, 1, 1) := by
        rw [← daysFromCivilN_leftInv (y + 1) 1 1
          ⟨by omega, by omega, by omega,
            le_trans (by omega) (monthLength_ge_28 (y + 1) 1), by omega⟩]
        congr 1
        unfold daysFromCivilN at hrec ⊢
        norm_num [monthOffset] at hrec ⊢
        omega
      rw [hnext]
      exact ⟨Or.inl (Nat.lt_succ_self y), Nat.le_refl (y + 1)⟩

/-! ## Week windows -/

/-- The Monday on or before day `n`, exactly as computed by `getWeekDates`:
`diff = (day === 0) ? -6 : 1 - day` added to the date. -/
def mondayOf (n : ℕ) : ℕ :=
  if jsGetDay n = 0 then n - 6 else n + 1 - jsGetDay n

/-- Model of the hook's `getWeekDates`: the 7 dates (Monday–Sunday) of the week
containing the given date, as `YYYY-MM-DD` strings.  `none` models the
`RangeError` JS would raise calling `toISOString` on an Invalid Date. -/
def getWeekDates (s : String) : Option (List String) :=
  match parseDate s with
  | none => none
  | some n => some ((List.range 7).map (fun i => dateToString (mondayOf n + i)))

/-- `weekdayIndex` of the spec: weekday (0 = Sunday) of a date-string. -/
def weekdayIndex (s : String) : Option ℕ :=
  (parseDate s).map jsGetDay

theorem n_lt_of_yearOf_le (n Y : ℕ) (h : (civilFromDaysN n).1 ≤ Y) :
    n < daysFromCivilN (Y + 1) 1 1 := by
  obtain ⟨hv, hrec⟩ := civilFromDaysN_spec n
  rcases hc : civilFromDaysN n with ⟨y, m, d⟩
  rw [hc] at hv hrec h
  dsimp only at hv hrec h
  obtain ⟨h1, h2, h3, h4, h5⟩ := hv
  have hd31 : d ≤ 31 := le_trans h4 (monthLength_le_31 y m)
  have htar : daysFromCivilN (Y + 1) 1 1 = yearStartDays Y + 306 := by
    unfold daysFromCivilN monthOffset
    norm_num
  rw [htar]
  unfold daysFromCivilN at hrec
  by_cases hm : m ≤ 2
  · rw [if_pos hm, if_pos hm] at hrec
    have hmono : yearStartDays (y - 1) + 365 ≤ yearStartDays Y :=
      le_trans (yearStartDays_succ_ge (y - 1)) (yearStartDays_mono (by omega))
    have hoff : monthOffset (m + 9) ≤ 337 := by
      unfold monthOffset
      omega
    omega
  · rw [if_neg hm, if_neg hm] at hrec
    have hmono : yearStartDays y ≤ yearStartDays Y := yearStartDays_mono (by omega)
    have hoff : monthOffset (m - 3) ≤ 275 := by
      unfold monthOffset
      omega
    omega

theorem n_ge_306_of_yearOf_ge_1 (n : ℕ) (h : 1 ≤ (civilFromDaysN n).1) : 306 ≤ n := by
  obtain ⟨hv, hrec⟩ := civilFromDaysN_spec n
  rcases hc : civilFromDaysN n with ⟨y, m, d⟩
  rw [hc] at hv hrec h
  dsimp only at hv hrec h
  obtain ⟨h1, h2, h3, h4, h5⟩ := hv
  unfold daysFromCivilN at hrec
  by_cases hm : m ≤ 2
  · rw [if_pos hm, if_pos hm] at hrec
    have hoff : 306 ≤ monthOffset (m + 9) := by
      unfold monthOffset
      omega
    omega
  · rw [if_neg hm, if_neg hm] at hrec
    have hmono : yearStartDays 1 ≤ yearStartDays y := yearStartDays_mono (by omega)
    have hys : yearStartDays 1 = 365 := by decide
    omega

theorem dateToString_lt_succ (n : ℕ) (hy : (civilFromDaysN n).1 ≤ 9999)
    (hy2 : (civilFromDaysN (n + 1)).1 ≤ 9999) :
    dateToString n < dateToString (n + 1) :=
  dateToString_lt_of_lex n (n + 1) hy hy2 (civil_succ_lex n).1

theorem jsGetDay_lt (n : ℕ) : jsGetDay n < 7 := by
  unfold jsGetDay
  omega

theorem mondayOf_le (n : ℕ) (h : 6 ≤ n) : mondayOf n ≤ n ∧ n ≤ mondayOf n + 6 := by
  have h7 := jsGetDay_lt n
  unfold mondayOf
  split <;> omega

theorem jsGetDay_mondayOf (n : ℕ) (h : 6 ≤ n) : jsGetDay (mondayOf n) = 1 := by
  unfold mondayOf
  unfold jsGetDay
  split
  next hh => omega
  next hh => omega

/-! ## Domain model (`src/types/habit.ts`) -/

inductive HabitType
  | build
  | reduce
  deriving DecidableEq

inductive FrequencyType
  | daily
  | weekly
  | custom
  deriving DecidableEq

structure Frequency where
  type : FrequencyType
  value : Option ℤ
  weekdays : Option (List ℕ)
  startDate : Option String

structure ReduceConfig where
  startValue : ℤ
  targetValue : ℤ
  durationWeeks : ℤ
  unit : String

structure Habit where
  id : String
  name : String
  habitType : HabitType
  frequency : Frequency
  createdAt : String
  completions : String → Option Bool
  reduceConfig : Option ReduceConfig
  reduceCompletions : Option (String → Option ℤ)

/-- The empty `Record<string, _>`. -/
def emptyMap {α : Type} : String → Option α := fun _ => none

/-- `{...m, [k]: v}` — overwrite one key of a record. -/
def updateMap {α : Type} (m : String → Option α) (k : String) (v : α) :
    String → Option α :=
  fun q => if q = k then some v else m q

/-- `isoString.split("T")[0]` — the date-only part of an ISO timestamp. -/
def dateOnly (s : String) : String :=
  ⟨s.data.takeWhile (fun c => c != 'T')⟩

/-! ## Scheduling and reduction-target engine (`useHabits.ts`) -/

/-- Model of `isHabitScheduledForDate`.  JS comparisons against an Invalid
Date are all false, which the `none` branches reproduce. -/
def isHabitScheduledForDate (h : Habit) (dateString : String) : Bool :=
  if h.habitType = HabitType.reduce then
    match parseDate (dateOnly h.createdAt), parseDate dateString with
    | some created, some target => decide (created ≤ target)
    | _, _ => false
  else
    match h.frequency.type with
    | FrequencyType.daily => true
    | FrequencyType.weekly =>
      match parseDate dateString with
      | some t => (h.frequency.weekdays.getD []).contains (jsGetDay t)
      | none => false
    | FrequencyType.custom =>
      match h.frequency.value with
      | none => false
      | some v =>
        if v = 0 then false
        else
          match parseDate (h.frequency.startDate.getD (dateOnly h.createdAt)),
              parseDate dateString with
          | some ns, some nt =>
            decide (0 ≤ (nt : ℤ) - ns) && decide (((nt : ℤ) - ns).tmod v = 0)
          | _, _ => false

/-- Model of `getReduceTargetForDate`.  The linear-interpolation branch
`Math.round(startValue - decreasePerDay * daysDiff)` with
`decreasePerDay = (startValue - targetValue) / totalDays` is computed as the
exact rational `round`, written in integer arithmetic:
`round(s - dec*diff/tot) = s + ⌊(tot - 2*dec*diff) / (2*tot)⌋` (for
`tot > 0`, which holds in that branch since `0 ≤ diff < tot`).
`none` models the NaN that flows out when a date fails to parse. -/
def getReduceTargetForDate (h : Habit) (dateString : String) : Option ℤ :=
  if h.habitType ≠ HabitType.reduce then some 0
  else
    match h.reduceConfig with
    | none => some 0
    | some cfg =>
      match parseDate (dateOnly h.createdAt), parseDate dateString with
      | some created, some cur =>
        if cur < created then some cfg.startValue
        else if (cur : ℤ) - created ≥ cfg.durationWeeks * 7 then some cfg.targetValue
        else
          some (max cfg.targetValue
            (cfg.startValue +
              (cfg.durationWeeks * 7 -
                  2 * (cfg.startValue - cfg.targetValue) * ((cur : ℤ) - created)).fdiv
                (2 * (cfg.durationWeeks * 7))))
      | _, _ => none

/-- `value <= target` as computed in `setReduceCompletion` /
`adjustReduceCompletion`; a NaN target compares false. -/
def reduceCompleted (value : ℤ) (target : Option ℤ) : Bool :=
  match target with
  | some t => decide (value ≤ t)
  | none => false

/-! ## Completion store commands (`useHabits.ts`) -/

def addHabit (id createdAt name : String) (frequency : Frequency)
    (habitType : HabitType) (reduceConfig : Option ReduceConfig)
    (habits : List Habit) : List Habit :=
  habits ++ [{
    id := id
    name := name
    habitType := habitType
    frequency := frequency
    createdAt := createdAt
    completions := emptyMap
    reduceConfig :=
      if habitType = HabitType.reduce ∧ reduceConfig.isSome then reduceConfig else none
    reduceCompletions :=
      if habitType = HabitType.reduce ∧ reduceConfig.isSome then some emptyMap
      else none }]

def updateHabit (id name : String) (frequency : Frequency) (habitType : HabitType)
    (reduceConfig : Option ReduceConfig) (habits : List Habit) : List Habit :=
  habits.map fun h =>
    if h.id = id then
      { h with
        name := name
        frequency := frequency
        habitType := habitType
        reduceConfig :=
          if habitType = HabitType.reduce ∧ reduceConfig.isSome then reduceConfig
          else none
        reduceCompletions :=
          if habitType = HabitType.reduce ∧ reduceConfig.isSome then
            some (h.reduceCompletions.getD emptyMap)
          else none }
    else h

def deleteHabit (id : String) (habits : List Habit) : List Habit :=
  habits.filter fun h => h.id != id

def renameHabit (id newName : String) (habits : List Habit) : List Habit :=
  if newName.trim = "" then habits
  else habits.map fun h => if h.id = id then { h with name := newName.trim } else h

def toggleCompletionForDate (id dateString : String) (habits : List Habit) :
    List Habit :=
  habits.map fun h =>
    if h.id = id then
      { h with completions :=
          updateMap h.completions dateString (!((h.completions dateString).getD false)) }
    else h

def setReduceCompletion (id dateString : String) (value : ℤ) (habits : List Habit) :
    List Habit :=
  habits.map fun h =>
    if h.id = id ∧ h.habitType = HabitType.reduce then
      { h with
        reduceCompletions :=
          some (updateMap (h.reduceCompletions.getD emptyMap) dateString value)
        completions :=
          updateMap h.completions dateString
            (reduceCompleted value (getReduceTargetForDate h dateString)) }
    else h

def adjustReduceCompletion (id dateString : String) (delta : ℤ) (habits : List Habit) :
    List Habit :=
  habits.map fun h =>
    if h.id = id ∧ h.habitType = HabitType.reduce then
      { h with
        reduceCompletions :=
          some (updateMap (h.reduceCompletions.getD emptyMap) dateString
            (max 0 (((h.reduceCompletions.getD emptyMap) dateString).getD 0 + delta)))
        completions :=
          updateMap h.completions dateString
            (reduceCompleted
              (max 0 (((h.reduceCompletions.getD emptyMap) dateString).getD 0 + delta))
              (getReduceTargetForDate h dateString)) }
    else h

/-! ## Store queries -/

def isCompletedOnDate (h : Habit) (dateString : String) : Bool :=
  (h.completions dateString).getD false

def getReduceValue (h : Habit) (dateString : String) : ℤ :=
  ((h.reduceCompletions.getD emptyMap) dateString).getD 0

/-- A reduce habit fixture: 60 → 0 over 4 weeks, created 2026-01-01. -/
def sampleReduceHabit : Habit := {
  id := "h1"
  name := "smoke"
  habitType := HabitType.reduce
  frequency := ⟨FrequencyType.daily, none, none, none⟩
  createdAt := "2026-01-01T00:00:00.000Z"
  completions := emptyMap
  reduceConfig := some ⟨60, 0, 4, "mins"⟩
  reduceCompletions := some emptyMap }

example : getReduceTargetForDate sampleReduceHabit ("2026-01-05") = some 51 := by decide
example : getReduceTargetForDate sampleReduceHabit ("2026-01-15") = some 30 := by decide
example : getReduceTargetForDate sampleReduceHabit ("2026-02-05") = some 0 := by decide
example :
    isCompletedOnDate
      ((setReduceCompletion ("h1") ("2026-01-05") 40 [sampleReduceHabit]).getD 0 sampleReduceHabit)
      ("2026-01-05") = true := by decide

/-! ## The reduce-habit derived-completion invariant (§3 of the spec) -/

/-- For a reduce habit, every recorded numeric count has a matching derived
boolean in `completions`. -/
def habitInv (h : Habit) : Prop :=
  h.habitType = HabitType.reduce →
    ∀ d v, (h.reduceCompletions.getD emptyMap) d = some v →
      h.completions d = some (reduceCompleted v (getReduceTargetForDate h d))

def storeInv (habits : List Habit) : Prop :=
  ∀ h ∈ habits, habitInv h

/-- States reachable from the empty store by the store's commands.
`addHabit`'s generated id and `createdAt` timestamp, and `toggleCompletion`'s
"today", enter as arbitrary arguments. -/
inductive ReachAll : List Habit → Prop
  | nil : ReachAll []
  | add (id createdAt name : String) (f : Frequency) (t : HabitType)
      (c : Option ReduceConfig) {s : List Habit} :
      ReachAll s → ReachAll (addHabit id createdAt name f t c s)
  | update (id name : String) (f : Frequency) (t : HabitType)
      (c : Option ReduceConfig) {s : List Habit} :
      ReachAll s → ReachAll (updateHabit id name f t c s)
  | del (id : String) {s : List Habit} : ReachAll s → ReachAll (deleteHabit id s)
  | ren (id newName : String) {s : List Habit} :
      ReachAll s → ReachAll (renameHabit id newName s)
  | toggle (id d : String) {s : List Habit} :
      ReachAll s → ReachAll (toggleCompletionForDate id d s)
  | setr (id d : String) (v : ℤ) {s : List Habit} :
      ReachAll s → ReachAll (setReduceCompletion id d v s)
  | adjr (id d : String) (v : ℤ) {s : List Habit} :
      ReachAll s → ReachAll (adjustReduceCompletion id d v s)

/-- States reachable from the empty store without `toggleCompletionForDate`
and without `updateHabit` (the two commands that can break the derived
invariant: a manual toggle overrides the derived flag, and an edit can change
`reduceConfig` without recomputing `completions`). -/
inductive ReachSafe : List Habit → Prop
  | nil : ReachSafe []
  | add (id createdAt name : String) (f : Frequency) (t : HabitType)
      (c : Option ReduceConfig) {s : List Habit} :
      ReachSafe s → ReachSafe (addHabit id createdAt name f t c s)
  | del (id : String) {s : List Habit} : ReachSafe s → ReachSafe (deleteHabit id s)
  | ren (id newName : String) {s : List Habit} :
      ReachSafe s → ReachSafe (renameHabit id newName s)
  | setr (id d : String) (v : ℤ) {s : List Habit} :
      ReachSafe s → ReachSafe (setReduceCompletion id d v s)
  | adjr (id d : String) (v : ℤ) {s : List Habit} :
      ReachSafe s → ReachSafe (adjustReduceCompletion id d v s)

theorem storeInv_map {f : Habit → Habit} (hf : ∀ h, habitInv h → habitInv (f h))
    {s : List Habit} (hs : storeInv s) : storeInv (s.map f) := by
  intro h hm
  obtain ⟨a, haa, rfl⟩ := List.mem_map.mp hm
  exact hf a (hs a haa)

theorem storeInv_add (id createdAt name : String) (f : Frequency) (t : HabitType)
    (c : Option ReduceConfig) {s : List Habit} (hs : storeInv s) :
    storeInv (addHabit id createdAt name f t c s) := by
  intro h hm
  unfold addHabit at hm
  rcases List.mem_append.mp hm with hm | hm
  · exact hs h hm
  · rcases List.mem_singleton.mp hm with rfl
    intro _ d v hlook
    exfalso
    dsimp only at hlook
    split at hlook <;> simp [emptyMap] at hlook

theorem storeInv_del (id : String) {s : List Habit} (hs : storeInv s) :
    storeInv (deleteHabit id s) := by
  intro h hm
  exact hs h (List.mem_of_mem_filter hm)

theorem storeInv_ren (id newName : String) {s : List Habit} (hs : storeInv s) :
    storeInv (renameHabit id newName s) := by
  unfold renameHabit
  split
  · exact hs
  · apply storeInv_map _ hs
    intro h hi
    split
    · intro ht d v hlook
      exact hi ht d v hlook
    · exact hi

theorem storeInv_setr (id d : String) (v : ℤ) {s : List Habit} (hs : storeInv s) :
    storeInv (setReduceCompletion id d v s) := by
  apply storeInv_map _ hs
  intro h hi
  split
  next hcond =>
    intro ht d2 v2 hlook
    dsimp only at hlook ⊢
    by_cases hdd : d2 = d
    · subst hdd
      have hv : v = v2 := by simpa [updateMap] using hlook
      simp only [updateMap, if_pos]
      rw [← hv]
      rfl
    · simp only [Option.getD_some, updateMap, if_neg hdd] at hlook ⊢
      exact hi hcond.2 d2 v2 hlook
  next => exact hi

theorem storeInv_adjr (id d : String) (v : ℤ) {s : List Habit} (hs : storeInv s) :
    storeInv (adjustReduceCompletion id d v s) := by
  apply storeInv_map _ hs
  intro h hi
  split
  next hcond =>
    intro ht d2 v2 hlook
    dsimp only at hlook ⊢
    by_cases hdd : d2 = d
    · subst hdd
      have hv : max 0 ((h.reduceCompletions.getD emptyMap d2).getD 0 + v) = v2 := by
        simpa [updateMap] using hlook
      simp only [updateMap, if_pos]
      rw [← hv]
      rfl
    · simp only [Option.getD_some, updateMap, if_neg hdd] at hlook ⊢
      exact hi hcond.2 d2 v2 hlook
  next => exact hi

theorem reachSafe_inv {s : List Habit} (h : ReachSafe s) : storeInv s := by
  induction h with
  | nil => intro h hm; cases hm
  | add id createdAt name f t c _ ih => exact storeInv_add id createdAt name f t c ih
  | del id _ ih => exact storeInv_del id ih
  | ren id newName _ ih => exact storeInv_ren id newName ih
  | setr id d v _ ih => exact storeInv_setr id d v ih
  | adjr id d v _ ih => exact storeInv_adjr id d v ih

/-! ## Claim fixtures -/

def dailyFreq : Frequency := ⟨FrequencyType.daily, none, none, none⟩

/-- A custom-frequency build habit: every 3 days from 2026-01-01. -/
def c6Habit : Habit := {
  id := "h6"
  name := "stretch"
  habitType := HabitType.build
  frequency := ⟨FrequencyType.custom, some 3, none, some ("2026-01-01")⟩
  createdAt := "2025-12-15T10:00:00.000Z"
  completions := emptyMap
  reduceConfig := none
  reduceCompletions := none }

/-- A build habit used for the no-op claims. -/
def buildHabit : Habit := {
  id := "h1"
  name := "read"
  habitType := HabitType.build
  frequency := dailyFreq
  createdAt := "2026-01-01T00:00:00.000Z"
  completions := emptyMap
  reduceConfig := none
  reduceCompletions := none }

/-- A reduce habit with `durationWeeks = 0`. -/
def c5Habit : Habit := {
  id := "h5"
  name := "snooze"
  habitType := HabitType.reduce
  frequency := dailyFreq
  createdAt := "2026-01-01T00:00:00.000Z"
  completions := emptyMap
  reduceConfig := some ⟨10, 2, 0, "times"⟩
  reduceCompletions := some emptyMap }

/-- The C1 counterexample run: add a reduce habit, record a count of 0 for
2026-01-05 (deriving `completions = true`), then manually toggle that date. -/
def c1Store : List Habit :=
  toggleCompletionForDate ("h1") ("2026-01-05")
    (setReduceCompletion ("h1") ("2026-01-05") 0
      (addHabit ("h1") ("2026-01-01T00:00:00.000Z") ("smoke") dailyFreq
        HabitType.reduce (some ⟨60, 0, 4, "mins"⟩) []))

/-- A store reached without toggles, for the C1 witness. -/
def c1SafeStore : List Habit :=
  setReduceCompletion ("h1") ("2026-01-05") 3
    (addHabit ("h1") ("2026-01-01T00:00:00.000Z") ("smoke") dailyFreq
      HabitType.reduce (some ⟨60, 0, 4, "mins"⟩) [])

/-! ## Claims -/

/-- C1 (counterexample): the invariant "for every reduce habit and date with
`reduceCompletions[d]` defined, `completions[d] = (reduceCompletions[d] ≤
reduceTargetFor(habit, d))`" does NOT hold in every state reachable by the
store's commands: `toggleCompletionForDate` flips the derived flag without
touching the numeric record.  In `c1Store` the recorded count 0 is at or
under the target 51 for 2026-01-05, yet `completions` reads `false`. -/
theorem C1_toggle_breaks_invariant : ReachAll c1Store ∧ ¬ storeInv c1Store := by
  constructor
  · exact ReachAll.toggle _ _ (ReachAll.setr _ _ _ (ReachAll.add _ _ _ _ _ _ ReachAll.nil))
  · intro hinv
    have hmem : c1Store.get ⟨0, by decide⟩ ∈ c1Store := List.get_mem c1Store 0 (by decide)
    have hi := hinv _ hmem
    have hred : (c1Store.get ⟨0, by decide⟩).habitType = HabitType.reduce := by decide
    have hlook :
        ((c1Store.get ⟨0, by decide⟩).reduceCompletions.getD emptyMap) ("2026-01-05") =
          some 0 := by decide
    have hconc := hi hred ("2026-01-05") 0 hlook
    have hread : (c1Store.get ⟨0, by decide⟩).completions ("2026-01-05") = some false := by
      decide
    have htrue :
        reduceCompleted 0
          (getReduceTargetForDate (c1Store.get ⟨0, by decide⟩) ("2026-01-05")) = true := by
      decide
    rw [hread, htrue] at hconc
    simp at hconc

/-- C1 (amended): the derived-completion invariant holds in every state
reachable from the empty store by the commands `addHabit`, `deleteHabit`,
`renameHabit`, `setReduceCompletion` and `adjustReduceCompletion` — that is,
excluding the two commands that overwrite or invalidate the derivation
(`toggleCompletionForDate`, which manually overrides the flag, and
`updateHabit`, which can replace `reduceConfig` without recomputing
`completions`). -/
theorem C1_reduce_invariant (s : List Habit) (h : ReachSafe s) : storeInv s :=
  reachSafe_inv h

theorem C1_reduce_invariant_witness : ReachSafe c1SafeStore ∧ storeInv c1SafeStore := by
  have hr : ReachSafe c1SafeStore :=
    ReachSafe.setr _ _ _ (ReachSafe.add _ _ _ _ _ _ ReachSafe.nil)
  exact ⟨hr, C1_reduce_invariant c1SafeStore hr⟩

/-- C2: immediately after `setReduceCompletion(id, d, v)` on a reduce habit
present in the store, `isCompletedOnDate(habit, d)` equals
`v ≤ reduceTargetFor(habit, d)`.  Queries are pure, so the equality holds
for every subsequent read until the next command writes that date. -/
theorem C2_setReduce_isCompleted (s : List Habit) (id d : String) (v : ℤ) (i : ℕ)
    (h : Habit) (hs : s[i]? = some h) (hid : h.id = id)
    (hr : h.habitType = HabitType.reduce) (t : ℤ)
    (ht : getReduceTargetForDate h d = some t) :
    (setReduceCompletion id d v s)[i]?.map (fun h2 => isCompletedOnDate h2 d) =
      some (decide (v ≤ t)) := by
  unfold setReduceCompletion
  rw [List.getElem?_map, hs, Option.map_some', Option.map_some']
  rw [if_pos ⟨hid, hr⟩]
  show some (((updateMap h.completions d
      (reduceCompleted v (getReduceTargetForDate h d))) d).getD false) = _
  rw [ht]
  simp [updateMap, reduceCompleted]

theorem C2_setReduce_isCompleted_witness :
    (setReduceCompletion ("h1") ("2026-01-05") 40 [sampleReduceHabit])[0]?.map
      (fun h2 => isCompletedOnDate h2 ("2026-01-05")) = some (decide ((40 : ℤ) ≤ 51)) :=
  C2_setReduce_isCompleted [sampleReduceHabit] ("h1") ("2026-01-05") 40 0 sampleReduceHabit rfl rfl rfl
    51 (by decide)

/-- C3 (counterexample): `setReduceCompletion` does NOT clamp the written
value to be non-negative — the raw value, here `-5`, is stored as is. -/
theorem C3_set_does_not_clamp :
    (setReduceCompletion ("h1") ("2026-01-05") (-5) [sampleReduceHabit]).map
      (fun h2 => (h2.reduceCompletions.getD emptyMap) ("2026-01-05")) =
      [some (-5)] ∧ (-5 : ℤ) < 0 := by
  constructor
  · decide
  · decide

/-- C3 (amended): `setReduceCompletion(id, d, v)` stores exactly `v` in
`reduceCompletions[d]` (no clamping), while `adjustReduceCompletion(id, d, δ)`
stores `max 0 (previous + δ)` where the previous value is 0 if absent, with
no upper bound. -/
theorem C3_stored_reduce_values (s : List Habit) (id d : String) (v dl : ℤ) (i : ℕ)
    (h : Habit) (hs : s[i]? = some h) (hid : h.id = id)
    (hr : h.habitType = HabitType.reduce) :
    (setReduceCompletion id d v s)[i]?.map
        (fun h2 => (h2.reduceCompletions.getD emptyMap) d) = some (some v) ∧
    (adjustReduceCompletion id d dl s)[i]?.map
        (fun h2 => (h2.reduceCompletions.getD emptyMap) d) =
      some (some (max 0 (((h.reduceCompletions.getD emptyMap) d).getD 0 + dl))) := by
  constructor
  · unfold setReduceCompletion
    rw [List.getElem?_map, hs, Option.map_some', Option.map_some', if_pos ⟨hid, hr⟩]
    simp [updateMap]
  · unfold adjustReduceCompletion
    rw [List.getElem?_map, hs, Option.map_some', Option.map_some', if_pos ⟨hid, hr⟩]
    simp [updateMap]

theorem C3_stored_reduce_values_witness :
    (setReduceCompletion ("h1") ("2026-01-05") (-5) [sampleReduceHabit])[0]?.map
        (fun h2 => (h2.reduceCompletions.getD emptyMap) ("2026-01-05")) =
      some (some (-5)) ∧
    (adjustReduceCompletion ("h1") ("2026-01-05") (-7) [sampleReduceHabit])[0]?.map
        (fun h2 => (h2.reduceCompletions.getD emptyMap) ("2026-01-05")) =
      some (some (max 0 (((sampleReduceHabit.reduceCompletions.getD emptyMap)
        ("2026-01-05")).getD 0 + (-7)))) :=
  C3_stored_reduce_values [sampleReduceHabit] ("h1") ("2026-01-05") (-5) (-7) 0 sampleReduceHabit rfl
    rfl rfl

/-- C4: for the reduce habit `sampleReduceHabit` (startValue 60, targetValue 0,
durationWeeks 4 ⇒ totalDays 28, created 2026-01-01 = day 739922),
`reduceTargetFor` returns 60 at diff 0, returns 0 on every parsed date at
diff ≥ 28, returns 30 at diff 14, and the targets over diff = 0..28 are
defined and non-increasing. -/
theorem C4_reduce_target_values :
    getReduceTargetForDate sampleReduceHabit (dateToString 739922) = some 60 ∧
    (∀ ds n, parseDate ds = some n → 739950 ≤ n →
      getReduceTargetForDate sampleReduceHabit ds = some 0) ∧
    getReduceTargetForDate sampleReduceHabit (dateToString (739922 + 14)) = some 30 ∧
    (∀ i, i ≤ 28 →
      (getReduceTargetForDate sampleReduceHabit (dateToString (739922 + i))).isSome) ∧
    (∀ i, i < 28 →
      (getReduceTargetForDate sampleReduceHabit (dateToString (739922 + i + 1))).getD 0 ≤
        (getReduceTargetForDate sampleReduceHabit (dateToString (739922 + i))).getD 0) := by
  refine ⟨by decide, ?_, by decide, by decide, by decide⟩
  intro ds n hp hn
  unfold getReduceTargetForDate
  rw [if_neg (by decide)]
  show (match parseDate (dateOnly sampleReduceHabit.createdAt), parseDate ds with
    | some created, some cur =>
      if cur < created then some (60 : ℤ)
      else if (cur : ℤ) - created ≥ 4 * 7 then some 0
      else some (max 0 (60 + (4 * 7 - 2 * (60 - 0) * ((cur : ℤ) - created)).fdiv (2 * (4 * 7))))
    | _, _ => none) = some 0
  rw [show parseDate (dateOnly sampleReduceHabit.createdAt) = some 739922 from by decide, hp]
  dsimp only
  rw [if_neg (by omega)]
  rw [if_pos (by omega)]

theorem C4_reduce_target_values_witness :
    getReduceTargetForDate sampleReduceHabit ("2026-02-10") = some 0 :=
  C4_reduce_target_values.2.1 ("2026-02-10") 739962 (by decide) (by omega)

/-- C5: for a reduce habit with `durationWeeks = 0` (totalDays 0),
`reduceTargetFor` returns `targetValue` on every date on or after the
creation date: the `diff ≥ totalDays` branch fires at once, so the
interpolation (and its division by `totalDays`) is never reached. -/
theorem C5_zero_duration_safe (h : Habit) (cfg : ReduceConfig) (ds : String)
    (c n : ℕ) (hr : h.habitType = HabitType.reduce) (hcfg : h.reduceConfig = some cfg)
    (hw : cfg.durationWeeks = 0) (hc : parseDate (dateOnly h.createdAt) = some c)
    (hn : parseDate ds = some n) (hge : c ≤ n) :
    getReduceTargetForDate h ds = some cfg.targetValue := by
  unfold getReduceTargetForDate
  rw [if_neg (by simp [hr]), hcfg]
  show (match parseDate (dateOnly h.createdAt), parseDate ds with
    | some created, some cur =>
      if cur < created then some cfg.startValue
      else if (cur : ℤ) - created ≥ cfg.durationWeeks * 7 then some cfg.targetValue
      else some (max cfg.targetValue
        (cfg.startValue + (cfg.durationWeeks * 7 -
          2 * (cfg.startValue - cfg.targetValue) * ((cur : ℤ) - created)).fdiv
            (2 * (cfg.durationWeeks * 7))))
    | _, _ => none) = some cfg.targetValue
  rw [hc, hn]
  dsimp only
  rw [if_neg (by omega), if_pos (by rw [hw]; push_cast; omega)]

theorem C5_zero_duration_safe_witness :
    getReduceTargetForDate c5Habit ("2026-03-03") = some (2 : ℤ) :=
  C5_zero_duration_safe c5Habit ⟨10, 2, 0, "times"⟩ ("2026-03-03") 739922 739983 rfl rfl
    rfl (by decide) (by decide) (by omega)

/-- C6: a build habit with custom frequency `everyNDays = v ≥ 1` is scheduled
exactly on the dates a whole non-negative multiple of `v` days after the
start (the frequency's `startDate`, else the date part of `createdAt`);
`c6Habit` (every 3 days from 2026-01-01) is scheduled on Jan 1/4/7 and not
on Jan 2/3/5/6, and dates before the start are never scheduled. -/
theorem C6_custom_scheduling :
    (∀ (h : Habit) (v : ℤ) (ns nt : ℕ) (ds : String),
      h.habitType = HabitType.build → h.frequency.type = FrequencyType.custom →
      h.frequency.value = some v → 1 ≤ v →
      parseDate (h.frequency.startDate.getD (dateOnly h.createdAt)) = some ns →
      parseDate ds = some nt →
      (isHabitScheduledForDate h ds = true ↔
        0 ≤ (nt : ℤ) - ns ∧ ((nt : ℤ) - ns) % v = 0)) ∧
    isHabitScheduledForDate c6Habit ("2026-01-01") = true ∧
    isHabitScheduledForDate c6Habit ("2026-01-04") = true ∧
    isHabitScheduledForDate c6Habit ("2026-01-07") = true ∧
    isHabitScheduledForDate c6Habit ("2026-01-02") = false ∧
    isHabitScheduledForDate c6Habit ("2026-01-03") = false ∧
    isHabitScheduledForDate c6Habit ("2026-01-05") = false ∧
    isHabitScheduledForDate c6Habit ("2026-01-06") = false ∧
    (∀ (h : Habit) (v : ℤ) (ns nt : ℕ) (ds : String),
      h.habitType = HabitType.build → h.frequency.type = FrequencyType.custom →
      h.frequency.value = some v → 1 ≤ v →
      parseDate (h.frequency.startDate.getD (dateOnly h.createdAt)) = some ns →
      parseDate ds = some nt → nt < ns →
      isHabitScheduledForDate h ds = false) := by
  have hgen : ∀ (h : Habit) (v : ℤ) (ns nt : ℕ) (ds : String),
      h.habitType = HabitType.build → h.frequency.type = FrequencyType.custom →
      h.frequency.value = some v → 1 ≤ v →
      parseDate (h.frequency.startDate.getD (dateOnly h.createdAt)) = some ns →
      parseDate ds = some nt →
      (isHabitScheduledForDate h ds = true ↔
        0 ≤ (nt : ℤ) - ns ∧ ((nt : ℤ) - ns) % v = 0) := by
    intro h v ns nt ds hb hc hv hv1 hns hnt
    unfold isHabitScheduledForDate
    rw [if_neg (by simp [hb]), hc]
    dsimp only
    rw [hv]
    dsimp only
    rw [if_neg (by omega), hns, hnt]
    dsimp only
    simp only [Bool.and_eq_true, decide_eq_true_eq]
    constructor
    · rintro ⟨h0, hm⟩
      exact ⟨h0, by rwa [Int.tmod_eq_emod h0 (by omega)] at hm⟩
    · rintro ⟨h0, hm⟩
      exact ⟨h0, by rwa [Int.tmod_eq_emod h0 (by omega)]⟩
  refine ⟨hgen, by decide, by decide, by decide, by decide, by decide, by decide,
    by decide, ?_⟩
  intro h v ns nt ds hb hc hv hv1 hns hnt hlt
  have hiff := hgen h v ns nt ds hb hc hv hv1 hns hnt
  cases hsch : isHabitScheduledForDate h ds with
  | false => rfl
  | true =>
    have h2 := hiff.mp hsch
    omega

theorem C6_custom_scheduling_witness :
    isHabitScheduledForDate c6Habit ("2026-01-13") = true ↔
      0 ≤ (739934 : ℤ) - 739922 ∧ ((739934 : ℤ) - 739922) % 3 = 0 :=
  C6_custom_scheduling.1 c6Habit 3 739922 739934 ("2026-01-13") rfl rfl rfl (by omega)
    (by decide) (by decide)

/-- C7: for every `YYYY-MM-DD` date-string (within the model's formatting
range, years 1–9998 — JS `toISOString` leaves the `YYYY-MM-DD` shape outside
years 0–9999), `weekDates` yields exactly 7 strings, sorted ascending in
lexicographic (equivalently chronological) order, whose first element is a
Monday (`weekdayIndex = 1`), and which contain the input date. -/
theorem C7_week_window (s : String) (n : ℕ) (hp : parseDate s = some n)
    (hy1 : 1 ≤ (civilFromDaysN n).1) (hy2 : (civilFromDaysN n).1 ≤ 9998) :
    ∃ l, getWeekDates s = some l ∧ l.length = 7 ∧ List.Sorted (· < ·) l ∧
      (∀ f, l.head? = some f → weekdayIndex f = some 1) ∧ s ∈ l := by
  have h306 : 306 ≤ n := n_ge_306_of_yearOf_ge_1 n hy1
  have hmon := mondayOf_le n (by omega)
  have hnmax : n < daysFromCivilN 9999 1 1 := n_lt_of_yearOf_le n 9998 hy2
  have hc9999 : daysFromCivilN 9999 1 1 = 3652000 := by decide
  have hyear : ∀ i, i ≤ 6 → (civilFromDaysN (mondayOf n + i)).1 ≤ 9999 := by
    intro i hi
    apply yearOf_le_9999
    omega
  refine ⟨(List.range 7).map (fun i => dateToString (mondayOf n + i)), ?_, ?_, ?_, ?_, ?_⟩
  · unfold getWeekDates
    rw [hp]
  · simp
  · apply List.chain'_iff_pairwise.mp
    rw [List.chain'_map]
    rw [show (7 : ℕ) = 6 + 1 from rfl, List.chain'_range_succ]
    intro m hm
    have he : mondayOf n + (m + 1) = mondayOf n + m + 1 := by omega
    rw [he]
    refine dateToString_lt_succ _ (hyear m (by omega)) ?_
    have h9 := hyear (m + 1) (by omega)
    rwa [he] at h9
  · intro f hf
    rw [List.head?_map, show (List.range 7).head? = some 0 from by decide,
      Option.map_some', Option.some.injEq] at hf
    unfold weekdayIndex
    rw [← hf, Nat.add_zero,
      parseDate_dateToString (mondayOf n)
        (by have h9 := hyear 0 (by omega); rwa [Nat.add_zero] at h9),
      Option.map_some', jsGetDay_mondayOf n (by omega)]
  · have hs2 : dateToString n = s := dateToString_parseDate s n hp
    rw [← hs2]
    apply List.mem_map.mpr
    refine ⟨n - mondayOf n, ?_, ?_⟩
    · apply List.mem_range.mpr
      omega
    · congr 1
      omega

theorem C7_week_window_witness :
    ∃ l, getWeekDates ("2026-01-01") = some l ∧ l.length = 7 ∧
      List.Sorted (· < ·) l ∧ (∀ f, l.head? = some f → weekdayIndex f = some 1) ∧
      ("2026-01-01") ∈ l :=
  C7_week_window ("2026-01-01") 739922 (by decide) (by decide) (by decide)

/-- C8: toggling the same `(id, date)` twice returns every habit's completion
read for that date (absent treated as false) to its original value. -/
theorem C8_toggle_involution (s : List Habit) (id d : String) :
    (toggleCompletionForDate id d (toggleCompletionForDate id d s)).map
      (fun h => isCompletedOnDate h d) = s.map (fun h => isCompletedOnDate h d) := by
  unfold toggleCompletionForDate
  rw [List.map_map, List.map_map]
  apply List.map_congr_left
  intro h hm
  by_cases hid : h.id = id
  · simp [Function.comp, if_pos hid, isCompletedOnDate, updateMap]
  · simp [Function.comp, if_neg hid]

/-- C9: `setReduceCompletion` and `adjustReduceCompletion` leave the store
completely unchanged when the id matches no habit or only non-reduce habits. -/
theorem C9_reduce_commands_noop (s : List Habit) (id d : String) (v dl : ℤ)
    (hno : ∀ h ∈ s, h.id = id → h.habitType ≠ HabitType.reduce) :
    setReduceCompletion id d v s = s ∧ adjustReduceCompletion id d dl s = s := by
  constructor
  · unfold setReduceCompletion
    exact (List.map_congr_left (fun h hm =>
      if_neg (fun hc => hno h hm hc.1 hc.2))).trans (List.map_id s)
  · unfold adjustReduceCompletion
    exact (List.map_congr_left (fun h hm =>
      if_neg (fun hc => hno h hm hc.1 hc.2))).trans (List.map_id s)

theorem C9_reduce_commands_noop_witness :
    setReduceCompletion ("h1") ("2026-01-05") 4 [buildHabit] = [buildHabit] ∧
    adjustReduceCompletion ("h1") ("2026-01-05") 2 [buildHabit] = [buildHabit] :=
  C9_reduce_commands_noop [buildHabit] ("h1") ("2026-01-05") 4 2 (by
    intro h hm heq
    rw [List.mem_singleton] at hm
    subst hm
    decide)

/-- C10: `toggleCompletionForDate(id, d)` changes at most the matching
habit's `completions` at key `d`: non-matching habits are untouched, every
other field of the matching habit is unchanged, completions at other keys
are unchanged, and afterwards `completions[d]` is defined for the matching
habit (holding the negation of the previous read). -/
theorem C10_toggle_frame (s : List Habit) (id d : String) (i : ℕ) (h : Habit)
    (hs : s[i]? = some h) :
    ∃ h2, (toggleCompletionForDate id d s)[i]? = some h2 ∧
      (h.id ≠ id → h2 = h) ∧
      h2.id = h.id ∧ h2.name = h.name ∧ h2.habitType = h.habitType ∧
      h2.frequency = h.frequency ∧ h2.createdAt = h.createdAt ∧
      h2.reduceConfig = h.reduceConfig ∧
      h2.reduceCompletions = h.reduceCompletions ∧
      (∀ k, k ≠ d → h2.completions k = h.completions k) ∧
      (h.id = id → h2.completions d = some (!((h.completions d).getD false))) ∧
      (h.id = id → (h2.completions d).isSome) := by
  unfold toggleCompletionForDate
  rw [List.getElem?_map, hs, Option.map_some']
  by_cases hid : h.id = id
  · rw [if_pos hid]
    refine ⟨_, rfl, fun hn => absurd hid hn, rfl, rfl, rfl, rfl, rfl, rfl, rfl,
      ?_, ?_, ?_⟩
    · intro k hk
      show updateMap h.completions d (!((h.completions d).getD false)) k = _
      simp [updateMap, hk]
    · intro _
      show updateMap h.completions d (!((h.completions d).getD false)) d = _
      simp [updateMap]
    · intro _
      show (updateMap h.completions d (!((h.completions d).getD false)) d).isSome
      simp [updateMap]
  · rw [if_neg hid]
    exact ⟨h, rfl, fun _ => rfl, rfl, rfl, rfl, rfl, rfl, rfl, rfl, fun k _ => rfl,
      fun hc => absurd hc hid, fun hc => absurd hc hid⟩

theorem C10_toggle_frame_witness :
    ∃ h2, (toggleCompletionForDate ("h1") ("2026-01-05") [sampleReduceHabit])[0]? = some h2 ∧
      (sampleReduceHabit.id ≠ "h1" → h2 = sampleReduceHabit) ∧
      h2.id = sampleReduceHabit.id ∧ h2.name = sampleReduceHabit.name ∧
      h2.habitType = sampleReduceHabit.habitType ∧
      h2.frequency = sampleReduceHabit.frequency ∧ h2.createdAt = sampleReduceHabit.createdAt ∧
      h2.reduceConfig = sampleReduceHabit.reduceConfig ∧
      h2.reduceCompletions = sampleReduceHabit.reduceCompletions ∧
      (∀ k, k ≠ ("2026-01-05") → h2.completions k = sampleReduceHabit.completions k) ∧
      (sampleReduceHabit.id = "h1" →
        h2.completions ("2026-01-05") =
          some (!((sampleReduceHabit.completions ("2026-01-05")).getD false))) ∧
      (sampleReduceHabit.id = "h1" → (h2.completions ("2026-01-05")).isSome) :=
  C10_toggle_frame [sampleReduceHabit] ("h1") ("2026-01-05") 0 sampleReduceHabit rfl
